import Mathlib

/-!
# Verification of the IDML translation core

Shallow embedding of the repository's IDML text-extraction / rewrite pipeline:

* `src/config/languages.ts` — the static language table and
  `LanguageConfigManager` lookups (direction, expansion factor).
* `TranslationService` (`src/services/TranslationService.ts`) —
  combining the text units of the two extraction strategies,
  merging translated content back, and the empty-submission check.
* `IdmlParser` (`src/services/IdmlParser.ts`) — the Direct-story
  extraction (`extractTextContent`) and rewrite (`updateTextInParagraphs`,
  `updateStoryContentWithDirection`).
* `IdmlParserXML` (`src/services/IdmlParserXML.ts`) — the Tagged-element
  extraction (`extractTextFromXMLElement`) and rewrite
  (`updateTextInXMLElement`, `updateXMLStoryContentWithDirection`), and the
  zip-level entry copying of `updateTextBoxesWithLanguage`.

XML trees are modelled after the xml2js representation the code manipulates:
child-element keys hold arrays of child objects, `$` holds the attribute map,
`_` holds stray text.  JavaScript numbers are modelled as `ℚ`; the
`toFixed(2)` rendering is modelled as exact two-decimal rounding.
-/

/-- JS `Map.set` on an association-list model: replace the value of an
existing key in place, otherwise append the new binding. -/
def mapSet {α : Type} (m : List (String × α)) (k : String) (v : α) :
    List (String × α) :=
  match m with
  | [] => [(k, v)]
  | (k', v') :: rest =>
      if k' = k then (k', v) :: rest else (k', v') :: mapSet rest k v

/-- JS `Map.get` on the association-list model. -/
def mapGet {α : Type} (m : List (String × α)) (k : String) : Option α :=
  match m with
  | [] => none
  | (k', v') :: rest => if k' = k then some v' else mapGet rest k

/-- Drop the first occurrence of `pat` from the character list `l`
(leaving `l` unchanged when `pat` does not occur). -/
def dropFirstOcc (pat : List Char) : List Char → List Char
  | [] => []
  | c :: cs =>
      if pat.isPrefixOf (c :: cs) then (c :: cs).drop pat.length
      else c :: dropFirstOcc pat cs

/-- JS `String.prototype.replace` with a string pattern replaces only the
first occurrence; here specialised to replacement by the empty string
(the only use in the code: stripping `Stories/` and `.xml`). -/
def replaceFirst (s pat : String) : String :=
  ⟨dropFirstOcc pat.data s.data⟩

/-- JS `String.prototype.toLowerCase` on the ASCII language codes used
here: lower-case every character. -/
def toLowerString (s : String) : String :=
  ⟨s.data.map Char.toLower⟩

/-- JS `String.prototype.trim`: strip leading and trailing whitespace. -/
def jsTrim (s : String) : String :=
  ⟨((s.data.dropWhile Char.isWhitespace).reverse.dropWhile
      Char.isWhitespace).reverse⟩

/-- JS `Number.prototype.toFixed(2)`: round to the nearest multiple of
1/100, ties away from zero toward `+∞` (the ECMA-262 "pick the larger n"
rule), modelled exactly on `ℚ`. -/
def toFixed2 (q : ℚ) : ℚ := ((⌊q * 100 + 1/2⌋ : ℤ) : ℚ) / 100

/- ### `src/config/languages.ts` -/

/-- `LanguageConfig` from `src/config/languages.ts`.  `direction` is one of
the two literal strings; `expansionFactor` is optional in the interface. -/
structure LanguageConfig where
  code : String
  name : String
  direction : String
  fontRecommendations : List String
  expansionFactor : Option ℚ
deriving DecidableEq, Repr

/-- The `SUPPORTED_LANGUAGES` table of `src/config/languages.ts`. -/
def SUPPORTED_LANGUAGES : List LanguageConfig :=
  [ ⟨"en", "English", "LeftToRightDirection", [], some 1.0⟩,
    ⟨"es", "Spanish", "LeftToRightDirection",
      ["Arial", "Times New Roman", "Calibri"], some 1.15⟩,
    ⟨"fr", "French", "LeftToRightDirection",
      ["Arial", "Times New Roman", "Calibri"], some 1.10⟩,
    ⟨"de", "German", "LeftToRightDirection",
      ["Arial", "Times New Roman", "Calibri"], some 1.20⟩,
    ⟨"pt", "Portuguese", "LeftToRightDirection",
      ["Arial", "Times New Roman", "Calibri"], some 1.15⟩,
    ⟨"it", "Italian", "LeftToRightDirection",
      ["Arial", "Times New Roman", "Calibri"], some 1.10⟩,
    ⟨"ru", "Russian", "LeftToRightDirection",
      ["Arial Unicode MS", "Times New Roman", "Calibri"], some 1.15⟩,
    ⟨"zh", "Chinese (Simplified)", "LeftToRightDirection",
      ["SimSun", "Microsoft YaHei", "Arial Unicode MS"], some 0.8⟩,
    ⟨"ja", "Japanese", "LeftToRightDirection",
      ["MS Gothic", "Hiragino Sans", "Arial Unicode MS"], some 0.9⟩,
    ⟨"ko", "Korean", "LeftToRightDirection",
      ["Malgun Gothic", "Dotum", "Arial Unicode MS"], some 0.85⟩,
    ⟨"ar", "Arabic", "RightToLeftDirection",
      ["Tahoma", "Arial Unicode MS", "Times New Roman"], some 1.25⟩,
    ⟨"fa", "Persian (Farsi)", "RightToLeftDirection",
      ["Tahoma", "Nazanin", "Arial Unicode MS"], some 1.30⟩,
    ⟨"he", "Hebrew", "RightToLeftDirection",
      ["Tahoma", "Arial Unicode MS", "Times New Roman"], some 1.10⟩,
    ⟨"ur", "Urdu", "RightToLeftDirection",
      ["Tahoma", "Arial Unicode MS", "Jameel Noori Nastaleeq"], some 1.35⟩ ]

/-- The static `languageMap`: every language inserted under its lowercased
code (`SUPPORTED_LANGUAGES.forEach(lang => map.set(lang.code.toLowerCase(), lang))`). -/
def languageMap : List (String × LanguageConfig) :=
  SUPPORTED_LANGUAGES.foldl (fun m l => mapSet m (toLowerString l.code) l) []

/-- `LanguageConfigManager.getLanguageConfig`: lookup by lowercased code. -/
def getLanguageConfig (languageCode : String) : Option LanguageConfig :=
  mapGet languageMap (toLowerString languageCode)

/-- `LanguageConfigManager.isLanguageSupported`. -/
def isLanguageSupported (languageCode : String) : Bool :=
  (getLanguageConfig languageCode).isSome

/-- `LanguageConfigManager.getTextDirection`:
`config?.direction || 'LeftToRightDirection'` — the JS `||` falls through on
the falsy empty string as well as on a missing config. -/
def getTextDirection (languageCode : String) : String :=
  match getLanguageConfig languageCode with
  | some c => if c.direction = "" then "LeftToRightDirection" else c.direction
  | none => "LeftToRightDirection"

/-- `LanguageConfigManager.getExpansionFactor`:
`config?.expansionFactor || 1.0` — the JS `||` falls through on a missing
config, a missing field, and the falsy value `0`. -/
def getExpansionFactor (languageCode : String) : ℚ :=
  match getLanguageConfig languageCode with
  | some c =>
      match c.expansionFactor with
      | some e => if e = 0 then 1.0 else e
      | none => 1.0
  | none => 1.0

/- ### Text units (`TextBox` of `src/types/index.ts`) -/

/-- A text unit: `{ id, content, storyId }`.  The optional style-range
back-references and position carried by the TypeScript interface play no
role in the merge logic modelled here. -/
structure TextBox where
  id : String
  content : String
  storyId : String
deriving DecidableEq, Repr

/- ### `TranslationService` -/

/-- The duplicate-removing combination of the two parsers' text boxes in
`TranslationService.submitIdmlForTranslation` / `getCompletedTranslation`:

```js
const allTextBoxes = [...standardDocument.textBoxes];
const existingIds = new Set(standardDocument.textBoxes.map(tb => tb.id));
for (const xmlTextBox of xmlDocument.textBoxes) {
  if (!existingIds.has(xmlTextBox.id)) { allTextBoxes.push(xmlTextBox); }
}
```
-/
def combine (standardBoxes xmlBoxes : List TextBox) : List TextBox :=
  let existingIds := standardBoxes.map (·.id)
  xmlBoxes.foldl
    (fun acc tb => if existingIds.contains tb.id then acc else acc ++ [tb])
    standardBoxes

/-- The id → translated-content map of `TranslationService.mergeTranslations`
(`translationMap.set(translated.id, translated.translatedContent)`). -/
def buildTranslationMap (pairs : List (String × String)) :
    List (String × String) :=
  pairs.foldl (fun m p => mapSet m p.1 p.2) []

/-- `TranslationService.mergeTranslations`: per original text box, look up
its id; `if (translatedContent)` — a truthiness test, so the content is
replaced only when the lookup yields a non-empty string. -/
def mergeTranslations (originalTextBoxes : List TextBox)
    (pairs : List (String × String)) : List TextBox :=
  let translationMap := buildTranslationMap pairs
  originalTextBoxes.map (fun textBox =>
    match mapGet translationMap textBox.id with
    | some translatedContent =>
        if translatedContent = "" then textBox
        else { textBox with content := translatedContent }
    | none => textBox)

/-- Outcome of the emptiness check in
`TranslationService.submitIdmlForTranslation`. -/
inductive SubmitOutcome where
  | emptyResultError
  | proceed (boxes : List TextBox)
deriving DecidableEq, Repr

/-- The hard emptiness check of `TranslationService.submitIdmlForTranslation`:
after combining both parsers' text boxes,
`if (allTextBoxes.length === 0) throw new Error('No text boxes found in the IDML file')`;
otherwise submission proceeds with the combined list. -/
def submitIdmlCheck (standardBoxes xmlBoxes : List TextBox) : SubmitOutcome :=
  let allTextBoxes := combine standardBoxes xmlBoxes
  if allTextBoxes.length = 0 then .emptyResultError else .proceed allTextBoxes

/- ### `IdmlParser` (Direct-story strategy) — xml2js story model -/

/-- One entry of an xml2js `Content` array: either a plain string or an
object whose stray text sits under `_` (absent when there is none). -/
inductive CItem where
  | cstr (s : String)
  | cobj (t : Option String)
deriving DecidableEq, Repr

/-- The `$` attribute map of a character-style range, with the
`PointSize` attribute (a JS number, modelled as `ℚ`) split out from the
remaining attributes, which the code never touches. -/
structure CRAttrs where
  pointSize : Option ℚ
  rest : List (String × String)
deriving DecidableEq, Repr

mutual
/-- An xml2js node of a story's styled-run structure, as probed by
`IdmlParser.extractTextContent`: possible `CharacterStyleRange` children
(`csr`; an absent key behaves as the empty forest everywhere the code
touches it), a possible `Content` array, possible stray text `_`
(absent behaves as `""`), and the `$` attributes. Both
`ParagraphStyleRange` elements and `CharacterStyleRange` elements have
this shape — the source walks them with the same dynamic code. -/
inductive SRange : Type where
  | mk (attrs : Option CRAttrs) (csr : SRForest) (content : List CItem)
      (extra : String) : SRange
/-- An xml2js array of `SRange` nodes. -/
inductive SRForest : Type where
  | nil : SRForest
  | cons (r : SRange) (rs : SRForest) : SRForest
end

def SRange.attrsD : SRange → Option CRAttrs
  | .mk a _ _ _ => a

def SRange.csrD : SRange → SRForest
  | .mk _ c _ _ => c

def SRange.contentD : SRange → List CItem
  | .mk _ _ c _ => c

def SRange.extraD : SRange → String
  | .mk _ _ _ x => x

def SRForest.toList : SRForest → List SRange
  | .nil => []
  | .cons r rs => r :: rs.toList

def SRForest.length : SRForest → Nat
  | .nil => 0
  | .cons _ rs => rs.length + 1

def SRForest.get? : SRForest → Nat → Option SRange
  | .nil, _ => none
  | .cons r _, 0 => some r
  | .cons _ rs, n + 1 => rs.get? n

/-- Text of one `Content` array entry:
`if (typeof content === 'string') text += content; else if (content._) text += content._`
(an object without stray text, or with the falsy empty string, adds nothing). -/
def cItemText : CItem → String
  | .cstr s => s
  | .cobj t => t.getD ""

mutual
/-- One step of `IdmlParser.extractTextContent` on a single element:
recurse into `element.CharacterStyleRange`, then append the `Content`
entries, then append stray `element._` text. -/
def extractElemD : SRange → String
  | .mk _ csr content extra =>
      extractTextContent csr
        ++ content.foldl (fun t c => t ++ cItemText c) ""
        ++ extra
/-- `IdmlParser.extractTextContent`: concatenate over the element array
in document order, with no separator between runs. -/
def extractTextContent : SRForest → String
  | .nil => ""
  | .cons e es => extractElemD e ++ extractTextContent es
end

/-- The font-size branch of `IdmlParser.updateTextInParagraphs` (and the
identical one in `IdmlParserXML.updateTextInXMLElement`):
`if (fontSizeScale !== 1.0 && charRange.$) { PointSize = (parseFloat(PointSize || '12') * scale).toFixed(2) }`. -/
def scaleAttrs (fontSizeScale : ℚ) (attrs : Option CRAttrs) : Option CRAttrs :=
  if fontSizeScale = 1 then attrs
  else
    match attrs with
    | some a => some ⟨some (toFixed2 (a.pointSize.getD 12 * fontSizeScale)), a.rest⟩
    | none => none

/-- The per-character-range body of `IdmlParser.updateTextInParagraphs`:
scale the point size, then `Content = [newContent]` when `i === 0 && j === 0`
and `Content = ['']` otherwise. -/
def updateCharRangeD (newContent : String) (fontSizeScale : ℚ)
    (isFirstOfFirst : Bool) : SRange → SRange
  | .mk attrs csr _ extra =>
      .mk (scaleAttrs fontSizeScale attrs) csr
        [CItem.cstr (if isFirstOfFirst then newContent else "")] extra

/-- The inner `for (let j = 0; ...)` loop over a paragraph's
`CharacterStyleRange` array (paragraph index `i`, range index `j`). -/
def updateRangesD (newContent : String) (fontSizeScale : ℚ) (i j : Nat) :
    SRForest → SRForest
  | .nil => .nil
  | .cons r rs =>
      .cons (updateCharRangeD newContent fontSizeScale (i == 0 && j == 0) r)
        (updateRangesD newContent fontSizeScale i (j + 1) rs)

/-- The outer `for (let i = 0; ...)` loop over the paragraphs; a paragraph's
own attributes, `Content` and stray text are never touched. -/
def updateParasD (newContent : String) (fontSizeScale : ℚ) (i : Nat) :
    SRForest → SRForest
  | .nil => .nil
  | .cons p ps =>
      .cons
        (match p with
         | .mk attrs csr content extra =>
             .mk attrs (updateRangesD newContent fontSizeScale i 0 csr)
               content extra)
        (updateParasD newContent fontSizeScale (i + 1) ps)

/-- `IdmlParser.updateTextInParagraphs(paragraphs, newContent, fontSizeScale)`. -/
def updateTextInParagraphs (paragraphs : SRForest) (newContent : String)
    (fontSizeScale : ℚ) : SRForest :=
  updateParasD newContent fontSizeScale 0 paragraphs

/-- A parsed Direct-path story as touched by
`IdmlParser.updateStoryContentWithDirection`: the `$` attribute map of
`StoryPreference[0]` when that element exists, and the
`ParagraphStyleRange` array (an absent key behaves as the empty forest). -/
structure DStory where
  pref : Option (List (String × String))
  paragraphs : SRForest

/-- `IdmlParser.updateStoryContentWithDirection`: set
`StoryPreference[0].$.StoryDirection` when the element exists, then run
`updateTextInParagraphs` once per relevant text box (each call rewrites the
same paragraph array in place). -/
def updateStoryContentWithDirection (story : DStory)
    (textBoxes : List TextBox) (textDirection : String)
    (fontSizeScale : ℚ) : DStory :=
  { pref := story.pref.map (fun a => mapSet a "StoryDirection" textDirection),
    paragraphs :=
      textBoxes.foldl
        (fun ps tb => updateTextInParagraphs ps tb.content fontSizeScale)
        story.paragraphs }

/-- The `ParagraphStyleRange` branch of `IdmlParser.extractTextBoxes`:
the unit's content is `extractTextContent(paragraphs)`, pushed with the
story id as unit id when non-blank. -/
def extractDirectUnit (storyId : String) (story : DStory) : Option TextBox :=
  let content := extractTextContent story.paragraphs
  if jsTrim content = "" then none else some ⟨storyId, content, storyId⟩

/- ### `IdmlParserXML` (Tagged-element strategy) -/

/-- A character-style range as touched by `IdmlParserXML`: its `$`
attributes and its `Content` array of strings (an absent key behaves as
the empty array everywhere the code touches it). -/
structure XRange where
  attrs : Option CRAttrs
  content : List String
deriving DecidableEq, Repr

/-- A paragraph-style range as touched by `IdmlParserXML`: its
`CharacterStyleRange` array (absent key behaves as the empty array). -/
structure XPara where
  ranges : List XRange
deriving DecidableEq, Repr

mutual
/-- A tagged `XMLElement` node: its direct `ParagraphStyleRange` array,
its direct `CharacterStyleRange` array, and its nested `XMLElement`
children (absent keys behave as empty). -/
inductive XMLElem : Type where
  | mk (psr : List XPara) (csr : List XRange) (children : XMLForest) : XMLElem
/-- An xml2js array of `XMLElement` nodes. -/
inductive XMLForest : Type where
  | nil : XMLForest
  | cons (e : XMLElem) (rest : XMLForest) : XMLForest
end

def XMLElem.psrX : XMLElem → List XPara
  | .mk p _ _ => p

def XMLElem.csrX : XMLElem → List XRange
  | .mk _ c _ => c

def XMLElem.childrenX : XMLElem → XMLForest
  | .mk _ _ ch => ch

def XMLForest.toList : XMLForest → List XMLElem
  | .nil => []
  | .cons e rest => e :: rest.toList

/-- `IdmlParserXML.extractTextContent`: for each paragraph append the
joined `Content` of each of its character ranges
(`Content.join('')`), then append `'\n'` — the newline is appended after
every paragraph, the last one included. -/
def extractTextContentX (paragraphs : List XPara) : String :=
  paragraphs.foldl
    (fun text para =>
      text ++ para.ranges.foldl (fun t r => t ++ String.join r.content) ""
        ++ "\n")
    ""

/-- `IdmlParserXML.extractTextContentFromCharacters`: joined `Content`
of each range, no separator. -/
def extractTextContentFromCharactersX (characters : List XRange) : String :=
  characters.foldl (fun t r => t ++ String.join r.content) ""

mutual
/-- `IdmlParserXML.extractTextFromXMLElement`: paragraph-style ranges
first, then direct character-style ranges, then nested tagged elements,
concatenated in that order. -/
def extractTextFromXMLElement : XMLElem → String
  | .mk psr csr children =>
      extractTextContentX psr
        ++ extractTextContentFromCharactersX csr
        ++ extractForestText children
/-- The `for (const nested of nestedElements)` loop of
`IdmlParserXML.extractTextFromXMLElement`. -/
def extractForestText : XMLForest → String
  | .nil => ""
  | .cons e rest => extractTextFromXMLElement e ++ extractForestText rest
end

/-- The per-range body of `IdmlParserXML.updateTextInXMLElement`: scale
the point size, then insert `[newContent]` if the `contentInserted` flag
is still false (setting it), else clear to `['']`. -/
def updRangeX (newContent : String) (fontSizeScale : ℚ) (flag : Bool)
    (r : XRange) : Bool × XRange :=
  let attrs' := scaleAttrs fontSizeScale r.attrs
  if flag then (true, ⟨attrs', [""]⟩) else (true, ⟨attrs', [newContent]⟩)

/-- The `for (let j = 0; ...)` loop over one paragraph's character
ranges, threading `contentInserted`. -/
def updRangesX (newContent : String) (fontSizeScale : ℚ) :
    Bool → List XRange → Bool × List XRange
  | flag, [] => (flag, [])
  | flag, r :: rs =>
      let p1 := updRangeX newContent fontSizeScale flag r
      let p2 := updRangesX newContent fontSizeScale p1.1 rs
      (p2.1, p1.2 :: p2.2)

/-- The `for (let i = 0; ...)` loop over one element's paragraph-style
ranges, threading `contentInserted`. -/
def updParasX (newContent : String) (fontSizeScale : ℚ) :
    Bool → List XPara → Bool × List XPara
  | flag, [] => (flag, [])
  | flag, p :: ps =>
      let p1 := updRangesX newContent fontSizeScale flag p.ranges
      let p2 := updParasX newContent fontSizeScale p1.1 ps
      (p2.1, ⟨p1.2⟩ :: p2.2)

mutual
/-- One element of `IdmlParserXML.updateTextInXMLElement`: process the
direct paragraph-style ranges, then — only when the flag is still false —
recurse into the nested elements.  The recursive call is the source's
`this.updateTextInXMLElement(xmlElement.XMLElement, ...)`, whose own
`contentInserted` flag is a fresh local: its value never flows back, so
the caller's flag is left unchanged by the recursion. -/
def updElemX (newContent : String) (fontSizeScale : ℚ) (flag : Bool)
    (e : XMLElem) : Bool × XMLElem :=
  match e with
  | .mk psr csr children =>
      let p1 := updParasX newContent fontSizeScale flag psr
      let children' :=
        if p1.1 then children
        else (updForestX newContent fontSizeScale false children).2
      (p1.1, .mk p1.2 csr children')
/-- The `for (const xmlElement of elements)` loop, threading the
caller-frame `contentInserted` flag across sibling elements. -/
def updForestX (newContent : String) (fontSizeScale : ℚ) (flag : Bool) :
    XMLForest → Bool × XMLForest
  | .nil => (flag, .nil)
  | .cons e rest =>
      let p1 := updElemX newContent fontSizeScale flag e
      let p2 := updForestX newContent fontSizeScale p1.1 rest
      (p2.1, .cons p1.2 p2.2)
end

/-- `IdmlParserXML.updateTextInXMLElement(xmlElements, newContent, fontSizeScale)`
(the outermost call starts with `contentInserted = false`). -/
def updateTextInXMLElement (xmlElements : XMLForest) (newContent : String)
    (fontSizeScale : ℚ) : XMLForest :=
  (updForestX newContent fontSizeScale false xmlElements).2

/-- A parsed Tagged-path story as touched by
`IdmlParserXML.updateXMLStoryContentWithDirection`: the `$` attribute map
of `StoryPreference[0]` when present, and the top-level `XMLElement`
array. -/
structure XStory where
  pref : Option (List (String × String))
  elems : XMLForest

/-- `IdmlParserXML.updateXMLStoryContentWithDirection`: set
`StoryPreference[0].$.StoryDirection` when present, then run
`updateTextInXMLElement` once per relevant text box over the same
element array. -/
def updateXMLStoryContentWithDirection (story : XStory)
    (textBoxes : List TextBox) (textDirection : String)
    (fontSizeScale : ℚ) : XStory :=
  { pref := story.pref.map (fun a => mapSet a "StoryDirection" textDirection),
    elems :=
      textBoxes.foldl
        (fun es tb => updateTextInXMLElement es tb.content fontSizeScale)
        story.elems }

/- ### Zip layer (`IdmlParserXML.updateTextBoxesWithLanguage`) -/

/-- One archive entry of the loaded IDML zip: its path, JSZip's `dir`
flag, and its bytes (opaque, modelled as a string). -/
structure ZipEntry where
  name : String
  isDir : Bool
  data : String
deriving DecidableEq, Repr

/-- The story-file filter used throughout both parsers:
`name.startsWith('Stories/Story_') && name.endsWith('.xml')`. -/
def isStoryFile (name : String) : Bool :=
  List.isPrefixOf "Stories/Story_".data name.data
    && List.isSuffixOf ".xml".data name.data

/-- `storyFile.replace('Stories/', '').replace('.xml', '')` — JS `replace`
with a string pattern replaces only the first occurrence. -/
def storyIdOfEntry (name : String) : String :=
  replaceFirst (replaceFirst name "Stories/") ".xml"

/-- The font-size scale computed in
`IdmlParserXML.updateStoryFilesWithLanguage` (and its `IdmlParser` twin):
`const fontSizeScale = 1 / expansionFactor`. -/
def fontSizeScaleFor (targetLanguage : String) : ℚ :=
  1 / getExpansionFactor targetLanguage

/-- `IdmlParserXML.updateStoryFilesWithLanguage`: rewrite, in place, every
story entry that has at least one relevant text box.  `storyTransform`
stands for `updateXMLStoryContentWithDirection` composed with the XML
codec (`parseXML` / `Builder.buildObject`), which works on the entry's
text and is outside this byte-level model; it receives the entry text,
the relevant boxes, the resolved direction and the font-size scale. -/
def updateStoryFilesWithLanguage (entries : List ZipEntry)
    (textBoxes : List TextBox) (targetLanguage : String)
    (storyTransform : String → List TextBox → String → ℚ → String) :
    List ZipEntry :=
  let textDirection := getTextDirection targetLanguage
  let scale := fontSizeScaleFor targetLanguage
  entries.map (fun e =>
    if isStoryFile e.name then
      let relevant := textBoxes.filter (fun tb => tb.storyId == storyIdOfEntry e.name)
      if relevant.length > 0 then
        { e with data := storyTransform e.data relevant textDirection scale }
      else e
    else e)

/-- `IdmlParserXML.updateTextBoxesWithLanguage`: copy every entry of the
original zip into a fresh zip — skipping entries with `file.dir` set —
then rewrite the relevant story files in place. -/
def updateTextBoxesWithLanguage (entries : List ZipEntry)
    (textBoxes : List TextBox) (targetLanguage : String)
    (storyTransform : String → List TextBox → String → ℚ → String) :
    List ZipEntry :=
  let copied := entries.filter (fun e => !e.isDir)
  updateStoryFilesWithLanguage copied textBoxes targetLanguage storyTransform

/- ### General lemmas about the merge layer -/

/-- Unrolling the push loop of `combine`: appending to an accumulator is
appending the tagged boxes whose id is not among `ids`. -/
theorem combine_foldl_eq (p : TextBox → Bool) :
    ∀ (t acc : List TextBox),
      t.foldl (fun acc tb => if p tb then acc else acc ++ [tb]) acc
        = acc ++ t.filter (fun tb => !p tb)
  | [], acc => by simp
  | tb :: t, acc => by
      cases h : p tb
      · simp [List.filter_cons, h, combine_foldl_eq p t (acc ++ [tb])]
      · simp [List.filter_cons, h, combine_foldl_eq p t acc]

/-- `combine` is the Direct list followed by the Tagged boxes whose id is
not claimed by a Direct box. -/
theorem combine_eq_filter (d t : List TextBox) :
    combine d t
      = d ++ t.filter (fun tb => !(d.map TextBox.id).contains tb.id) :=
  combine_foldl_eq (fun tb => (d.map TextBox.id).contains tb.id) t d

/-- `combine` with no Direct boxes returns the Tagged boxes unchanged. -/
theorem combine_nil_left (t : List TextBox) : combine [] t = t := by
  rw [combine_eq_filter]
  simp

/-- C2 — Merge precedence: `combine` starts from the Direct units and
appends exactly those Tagged units whose id is not already present, so
every combined unit either is a Direct unit or is a Tagged unit whose id
collides with no Direct unit; in particular a Direct `{Story_1, A}`
combined with a Tagged `{Story_1, B}` yields just `{Story_1, A}`. -/
theorem C2_merge_precedence (d t : List TextBox) (u : TextBox)
    (hu : u ∈ combine d t) :
    combine d t
        = d ++ t.filter (fun tb => !(d.map TextBox.id).contains tb.id) ∧
    (u ∈ d ∨ (u ∈ t ∧ ∀ v ∈ d, v.id ≠ u.id)) ∧
    combine [⟨"Story_1", "A", "Story_1"⟩] [⟨"Story_1", "B", "Story_1"⟩]
        = [⟨"Story_1", "A", "Story_1"⟩] := by
  refine ⟨combine_eq_filter d t, ?_, by decide⟩
  rw [combine_eq_filter] at hu
  rcases List.mem_append.1 hu with h | h
  · exact Or.inl h
  · have h1 := List.mem_filter.1 h
    refine Or.inr ⟨h1.1, fun v hv heq => ?_⟩
    have h2 : u.id ∉ d.map TextBox.id := by simpa using h1.2
    exact h2 (heq ▸ List.mem_map_of_mem TextBox.id hv)

/-- Witness for C2 at the concrete collision of the claim. -/
theorem C2_witness :
    combine [⟨"Story_1", "A", "Story_1"⟩] [⟨"Story_1", "B", "Story_1"⟩]
      = [⟨"Story_1", "A", "Story_1"⟩] :=
  (C2_merge_precedence [⟨"Story_1", "A", "Story_1"⟩]
    [⟨"Story_1", "B", "Story_1"⟩] ⟨"Story_1", "A", "Story_1"⟩
    (by decide)).2.2

/-- C9 — Empty-package rejection: the submission check fails with the
empty-result error exactly when both extraction strategies produced zero
units, and proceeds with the combined list when at least one unit was
extracted. -/
theorem C9_empty_rejection (s x : List TextBox) :
    (s = [] ∧ x = [] → submitIdmlCheck s x = .emptyResultError) ∧
    (s ≠ [] ∨ x ≠ [] → submitIdmlCheck s x = .proceed (combine s x)) ∧
    (submitIdmlCheck s x = .emptyResultError → s = [] ∧ x = []) := by
  have hne : s ≠ [] ∨ x ≠ [] → combine s x ≠ [] := by
    rintro (hs | hx)
    · rw [combine_eq_filter]
      intro h
      exact hs (List.append_eq_nil.1 h).1
    · cases s with
      | nil => rw [combine_nil_left]; exact hx
      | cons a s' =>
          rw [combine_eq_filter]
          intro h
          cases h
  refine ⟨?_, ?_, ?_⟩
  · rintro ⟨rfl, rfl⟩
    rfl
  · intro h
    have := hne h
    unfold submitIdmlCheck
    rw [if_neg (by simpa [List.length_eq_zero] using this)]
  · intro h
    by_contra hc
    rw [not_and_or] at hc
    have h2 : s ≠ [] ∨ x ≠ [] := hc
    have := hne h2
    unfold submitIdmlCheck at h
    rw [if_neg (by simpa [List.length_eq_zero] using this)] at h
    cases h

/-- Witness for C9: zero units reject, one unit proceeds. -/
theorem C9_witness :
    submitIdmlCheck [] [] = .emptyResultError ∧
    submitIdmlCheck [⟨"Story_1", "A", "Story_1"⟩] []
      = .proceed (combine [⟨"Story_1", "A", "Story_1"⟩] []) :=
  ⟨(C9_empty_rejection [] []).1 ⟨rfl, rfl⟩,
   (C9_empty_rejection [⟨"Story_1", "A", "Story_1"⟩] []).2.1
     (Or.inl (by decide))⟩

/-- C6 counterexample: a translated pair whose content is the empty
string is present in the pairs, yet `mergeTranslations` leaves the
unit's original content in place (the code's `if (translatedContent)`
truthiness check), contradicting "each unit whose id is present in the
pairs has its content replaced by the paired value". -/
theorem C6_counterexample :
    mergeTranslations [⟨"u1", "X", "u1"⟩] [("u1", "")]
        = [⟨"u1", "X", "u1"⟩] ∧
    mapGet (buildTranslationMap [("u1", "")]) "u1" = some "" ∧
    mergeTranslations [⟨"u1", "X", "u1"⟩] [("u1", "")]
        ≠ [⟨"u1", "", "u1"⟩] := by
  refine ⟨by decide, by decide, by decide⟩

/-- C6 (amended) — Partial translation tolerance: `mergeTranslations`
returns a same-length list in the same order; a unit is replaced by its
paired value exactly when its id maps to a non-empty string, and is
returned unchanged when its id is absent or maps to the empty string; no
unit is ever dropped. -/
theorem C6_apply_translations (units : List TextBox)
    (pairs : List (String × String)) (i : Nat) (u : TextBox)
    (hu : units.get? i = some u) :
    (mergeTranslations units pairs).length = units.length ∧
    ∃ u', (mergeTranslations units pairs).get? i = some u' ∧
      u'.id = u.id ∧ u'.storyId = u.storyId ∧
      ((∃ tr, mapGet (buildTranslationMap pairs) u.id = some tr ∧ tr ≠ "" ∧
          u'.content = tr) ∨
       (u'.content = u.content ∧
         (mapGet (buildTranslationMap pairs) u.id = none ∨
          mapGet (buildTranslationMap pairs) u.id = some ""))) := by
  constructor
  · simp [mergeTranslations]
  · simp only [mergeTranslations]
    rw [List.get?_map, hu]
    simp only [Option.map_some']
    cases htr : mapGet (buildTranslationMap pairs) u.id with
    | none =>
        refine ⟨u, ?_, rfl, rfl, Or.inr ⟨rfl, Or.inl rfl⟩⟩
        simp
    | some tr =>
        by_cases he : tr = ""
        · subst he
          refine ⟨u, ?_, rfl, rfl, Or.inr ⟨rfl, Or.inr rfl⟩⟩
          simp
        · refine ⟨{ u with content := tr }, ?_, rfl, rfl,
            Or.inl ⟨tr, rfl, he, rfl⟩⟩
          simp [he]

/-- Witness for C6 on the claim's own example shape: 3 units, 2 pairs,
the untranslated third unit comes back unchanged in a 3-long list. -/
theorem C6_witness :
    (mergeTranslations
        [⟨"a", "A", "a"⟩, ⟨"b", "B", "b"⟩, ⟨"c", "C", "c"⟩]
        [("a", "TA"), ("b", "TB")]).length = 3 ∧
    ∃ u', (mergeTranslations
        [⟨"a", "A", "a"⟩, ⟨"b", "B", "b"⟩, ⟨"c", "C", "c"⟩]
        [("a", "TA"), ("b", "TB")]).get? 2 = some u' ∧
      u'.id = "c" ∧ u'.storyId = "c" ∧
      ((∃ tr, mapGet (buildTranslationMap [("a", "TA"), ("b", "TB")]) "c"
            = some tr ∧ tr ≠ "" ∧ u'.content = tr) ∨
       (u'.content = "C" ∧
         (mapGet (buildTranslationMap [("a", "TA"), ("b", "TB")]) "c"
            = none ∨
          mapGet (buildTranslationMap [("a", "TA"), ("b", "TB")]) "c"
            = some ""))) :=
  C6_apply_translations
    [⟨"a", "A", "a"⟩, ⟨"b", "B", "b"⟩, ⟨"c", "C", "c"⟩]
    [("a", "TA"), ("b", "TB")] 2 ⟨"c", "C", "c"⟩ rfl

/- ### C5 — tagged extraction paragraph joining -/

/-- The claim's two-paragraph tagged element: paragraph-style ranges with
contents `"Foo"` and `"Bar"`. -/
def fooBarElem : XMLElem :=
  .mk [⟨[⟨none, ["Foo"]⟩]⟩, ⟨[⟨none, ["Bar"]⟩]⟩] [] .nil

/-- C5 counterexample: the tagged element with paragraphs `"Foo"`, `"Bar"`
extracts to `"Foo\nBar\n"` — the newline is appended after every
paragraph, the last included — not to the claimed `"Foo\nBar"`. -/
theorem C5_counterexample :
    extractTextFromXMLElement fooBarElem = "Foo\nBar\n" ∧
    extractTextFromXMLElement fooBarElem ≠ "Foo\nBar" :=
  ⟨rfl, by decide⟩

theorem string_join_cons (a : String) (l : List String) :
    String.join (a :: l) = a ++ String.join l := by
  have haux : ∀ (l : List String) (acc : String),
      l.foldl (· ++ ·) acc = acc ++ l.foldl (· ++ ·) "" := by
    intro l
    induction l with
    | nil => intro acc; simp [String.append_empty]
    | cons b l ih =>
        intro acc
        simp only [List.foldl_cons]
        rw [ih (acc ++ b), ih ("" ++ b), String.empty_append,
          String.append_assoc]
  simp only [String.join, List.foldl_cons]
  rw [haux l ("" ++ a), String.empty_append]

/-- C5 (amended) — Tagged extraction paragraph joining: the extracted
text of a tagged element's paragraph-style ranges is each paragraph's
concatenated range content followed by a newline — a newline after every
paragraph (terminator), not between paragraphs (separator); in
particular `"Foo"`, `"Bar"` extract to `"Foo\nBar\n"`. -/
theorem C5_tagged_joining (paragraphs : List XPara) :
    extractTextContentX paragraphs
      = String.join (paragraphs.map
          (fun p =>
            p.ranges.foldl (fun t r => t ++ String.join r.content) ""
              ++ "\n")) ∧
    extractTextFromXMLElement fooBarElem = "Foo\nBar\n" := by
  have haux : ∀ (ps : List XPara) (acc : String),
      ps.foldl
          (fun text para =>
            text ++ para.ranges.foldl (fun t r => t ++ String.join r.content)
                ""
              ++ "\n") acc
        = acc ++ String.join (ps.map
            (fun p =>
              p.ranges.foldl (fun t r => t ++ String.join r.content) ""
                ++ "\n")) := by
    intro ps
    induction ps with
    | nil => intro acc; simp [String.join, String.append_empty]
    | cons p ps ih =>
        intro acc
        simp only [List.foldl_cons, List.map_cons]
        rw [ih, string_join_cons]
        simp [String.append_assoc]
  refine ⟨?_, rfl⟩
  unfold extractTextContentX
  rw [haux paragraphs "", String.empty_append]

/- ### C7 — font-size scaling -/

/-- The `fa` row of the language table, looked up case-insensitively. -/
theorem getExpansionFactor_fa : getExpansionFactor "fa" = 1.30 := by
  have hc : getLanguageConfig "fa"
      = some ⟨"fa", "Persian (Farsi)", "RightToLeftDirection",
          ["Tahoma", "Nazanin", "Arial Unicode MS"], some 1.30⟩ := rfl
  unfold getExpansionFactor
  rw [hc]
  show (if (1.30 : ℚ) = 0 then (1.0 : ℚ) else 1.30) = 1.30
  rw [if_neg (by norm_num)]

theorem fontSizeScaleFor_fa : fontSizeScaleFor "fa" = 10 / 13 := by
  unfold fontSizeScaleFor
  rw [getExpansionFactor_fa]
  norm_num

theorem toFixed2_12pt : toFixed2 (12 * (10 / 13 : ℚ)) = 923 / 100 := by
  unfold toFixed2
  rw [show (12 * (10 / 13 : ℚ)) * 100 + 1 / 2 = 24013 / 26 by norm_num]
  rw [show (⌊(24013 / 26 : ℚ)⌋ : ℤ) = 923 by
    rw [Int.floor_eq_iff] <;> norm_num]
  norm_num

/-- C7 — Font-size scaling: the applied scale is `1 / expansionFactor`
of the target language, and a rewritten character-style range whose
point-size attribute is `p` carries `toFixed2 (p * scale)` afterwards
(the stored `PointSize` string is the two-decimal rendering of
`p * scale`). -/
theorem C7_font_scaling (lang : String) (p : ℚ)
    (restAttrs : List (String × String)) (content : List String)
    (c : String) (flag : Bool) (h : fontSizeScaleFor lang ≠ 1) :
    fontSizeScaleFor lang = 1 / getExpansionFactor lang ∧
    ((updRangeX c (fontSizeScaleFor lang) flag
        ⟨some ⟨some p, restAttrs⟩, content⟩).2).attrs
      = some ⟨some (toFixed2 (p * fontSizeScaleFor lang)), restAttrs⟩ := by
  refine ⟨rfl, ?_⟩
  unfold updRangeX scaleAttrs
  rw [if_neg h]
  cases flag <;> rfl

/-- Witness for C7: expansion factor `1.30` (language `fa`) scales a
12pt run to `9.23`pt. -/
theorem C7_witness :
    fontSizeScaleFor "fa" ≠ 1 ∧
    ((updRangeX "txt" (fontSizeScaleFor "fa") false
        ⟨some ⟨some 12, []⟩, []⟩).2).attrs
      = some ⟨some (923 / 100 : ℚ), []⟩ := by
  have h : fontSizeScaleFor "fa" ≠ 1 := by
    rw [fontSizeScaleFor_fa]; norm_num
  refine ⟨h, ?_⟩
  rw [(C7_font_scaling "fa" 12 [] [] "txt" false h).2]
  rw [fontSizeScaleFor_fa, toFixed2_12pt]

/- ### C8 — unaffected-entry preservation -/

/-- C8 counterexample: an archive holding a directory entry `Stories/`
and a file `mimetype` loses the directory entry on rewrite — the copy
loop of `updateTextBoxesWithLanguage` skips every entry with `file.dir`
set, so not every entry present at load is present at save. -/
theorem C8_counterexample :
    updateTextBoxesWithLanguage
        [⟨"Stories/", true, ""⟩, ⟨"mimetype", false, "m"⟩] [] "en"
        (fun d _ _ _ => d)
      = [⟨"mimetype", false, "m"⟩] ∧
    (⟨"Stories/", true, ""⟩ : ZipEntry)
        ∈ [(⟨"Stories/", true, ""⟩ : ZipEntry), ⟨"mimetype", false, "m"⟩] ∧
    (⟨"Stories/", true, ""⟩ : ZipEntry)
        ∉ [(⟨"mimetype", false, "m"⟩ : ZipEntry)] :=
  ⟨by decide, by decide, by decide⟩

/-- C8 (amended) — Unaffected-entry preservation for file entries: the
rewritten archive keeps every non-directory entry of the original, in
order (directory entries are dropped by the copy loop), and every kept
entry that is not a story file with at least one relevant unit is
byte-identical to the original. -/
theorem C8_entry_preservation (entries : List ZipEntry)
    (textBoxes : List TextBox) (targetLanguage : String)
    (storyTransform : String → List TextBox → String → ℚ → String)
    (i : Nat) (e : ZipEntry)
    (he : (entries.filter (fun e => !e.isDir)).get? i = some e)
    (huntouched : isStoryFile e.name = false ∨
        ∀ tb ∈ textBoxes, tb.storyId ≠ storyIdOfEntry e.name) :
    (updateTextBoxesWithLanguage entries textBoxes targetLanguage
        storyTransform).length
      = (entries.filter (fun e => !e.isDir)).length ∧
    (updateTextBoxesWithLanguage entries textBoxes targetLanguage
        storyTransform).get? i = some e := by
  constructor
  · simp [updateTextBoxesWithLanguage, updateStoryFilesWithLanguage]
  · simp only [updateTextBoxesWithLanguage, updateStoryFilesWithLanguage]
    rw [List.get?_map, he]
    simp only [Option.map_some']
    rcases huntouched with hn | hall
    · simp [hn]
    · have hrel : textBoxes.filter
          (fun tb => tb.storyId == storyIdOfEntry e.name) = [] := by
        rw [List.filter_eq_nil]
        intro tb htb
        simpa using hall tb htb
      by_cases hs : isStoryFile e.name <;> simp [hs, hrel]

/-- Witness for C8: a `designmap.xml` entry survives a rewrite that
touches nothing. -/
theorem C8_witness :
    (updateTextBoxesWithLanguage [⟨"designmap.xml", false, "D"⟩] [] "en"
        (fun d _ _ _ => d)).length
      = (([⟨"designmap.xml", false, "D"⟩] : List ZipEntry).filter
          (fun e => !e.isDir)).length ∧
    (updateTextBoxesWithLanguage [⟨"designmap.xml", false, "D"⟩] [] "en"
        (fun d _ _ _ => d)).get? 0 = some ⟨"designmap.xml", false, "D"⟩ :=
  C8_entry_preservation [⟨"designmap.xml", false, "D"⟩] [] "en"
    (fun d _ _ _ => d) 0 ⟨"designmap.xml", false, "D"⟩ (by decide)
    (Or.inl (by decide))

/- ### C10 — unknown-language defaults -/

theorem mapGet_mapSet_ne {α : Type} (m : List (String × α)) (k k' : String)
    (v : α) (h : k' ≠ k) : mapGet (mapSet m k' v) k = mapGet m k := by
  induction m with
  | nil => simp [mapSet, mapGet, h]
  | cons kv m ih =>
      obtain ⟨k0, v0⟩ := kv
      by_cases h0 : k0 = k'
      · subst h0
        simp [mapSet, mapGet, h]
      · simp only [mapSet, if_neg h0]
        by_cases h1 : k0 = k
        · simp [mapGet, h1]
        · simp [mapGet, h1, ih]

/-- Folding the language table over keys that all differ from the looked-up
key leaves the lookup unchanged. -/
theorem mapGet_langFold (key : String) :
    ∀ (ls : List LanguageConfig) (m : List (String × LanguageConfig)),
      (∀ cfg ∈ ls, toLowerString cfg.code ≠ key) →
      mapGet (ls.foldl (fun m l => mapSet m (toLowerString l.code) l) m) key
        = mapGet m key
  | [], m, _ => rfl
  | l :: ls, m, h => by
      simp only [List.foldl_cons]
      rw [mapGet_langFold key ls (mapSet m (toLowerString l.code) l)
        (fun cfg hc => h cfg (List.mem_cons_of_mem l hc))]
      exact mapGet_mapSet_ne m key (toLowerString l.code)
        l (h l (List.mem_cons_self l ls))

/-- A code not in the table (up to lowercasing) resolves to no config. -/
theorem getLanguageConfig_unknown (lang : String)
    (h : ∀ cfg ∈ SUPPORTED_LANGUAGES,
        toLowerString cfg.code ≠ toLowerString lang) :
    getLanguageConfig lang = none := by
  unfold getLanguageConfig languageMap
  exact mapGet_langFold (toLowerString lang) SUPPORTED_LANGUAGES [] h

/-- Attribute maps of a list of character ranges. -/
def collectAttrsRanges (rs : List XRange) : List (Option CRAttrs) :=
  rs.map (·.attrs)

/-- Attribute maps of every character range of a paragraph list. -/
def collectAttrsParas (ps : List XPara) : List (Option CRAttrs) :=
  ps.foldr (fun p acc => collectAttrsRanges p.ranges ++ acc) []

mutual
/-- All character-range attribute maps of a tagged element, direct
paragraph ranges, direct ranges and nested elements included. -/
def collectAttrsElem : XMLElem → List (Option CRAttrs)
  | .mk psr csr children =>
      collectAttrsParas psr ++ collectAttrsRanges csr
        ++ collectAttrsForest children
/-- All character-range attribute maps of a forest of tagged elements. -/
def collectAttrsForest : XMLForest → List (Option CRAttrs)
  | .nil => []
  | .cons e rest => collectAttrsElem e ++ collectAttrsForest rest
end

theorem scaleAttrs_one (attrs : Option CRAttrs) : scaleAttrs 1 attrs = attrs := by
  simp [scaleAttrs]

theorem updRangesX_attrs_one (c : String) :
    ∀ (flag : Bool) (rs : List XRange),
      collectAttrsRanges (updRangesX c 1 flag rs).2 = collectAttrsRanges rs
  | _, [] => rfl
  | flag, r :: rs => by
      have ih := updRangesX_attrs_one c true rs
      simp only [collectAttrsRanges, List.map_cons] at ih ⊢
      cases flag <;> simp only [updRangesX, updRangeX, scaleAttrs_one] <;>
        simpa using ih

theorem updParasX_attrs_one (c : String) :
    ∀ (flag : Bool) (ps : List XPara),
      collectAttrsParas (updParasX c 1 flag ps).2 = collectAttrsParas ps
  | _, [] => rfl
  | flag, p :: ps => by
      have ih := updParasX_attrs_one c (updRangesX c 1 flag p.ranges).1 ps
      have hr := updRangesX_attrs_one c flag p.ranges
      simp only [updParasX, collectAttrsParas, List.foldr_cons] at ih ⊢
      rw [ih]
      show collectAttrsRanges (updRangesX c 1 flag p.ranges).2 ++ _ = _
      rw [hr]

mutual
theorem collectAttrs_updElemX_one :
    ∀ (c : String) (flag : Bool) (e : XMLElem),
      collectAttrsElem (updElemX c 1 flag e).2 = collectAttrsElem e
  | c, flag, .mk psr csr children => by
      simp only [updElemX, collectAttrsElem]
      rw [updParasX_attrs_one c flag psr]
      by_cases h : (updParasX c 1 flag psr).1
      · simp [h]
      · simp [h, collectAttrs_updForestX_one c false children]
theorem collectAttrs_updForestX_one :
    ∀ (c : String) (flag : Bool) (f : XMLForest),
      collectAttrsForest (updForestX c 1 flag f).2 = collectAttrsForest f
  | _, _, .nil => rfl
  | c, flag, .cons e rest => by
      simp only [updForestX, collectAttrsForest]
      rw [collectAttrs_updElemX_one c flag e,
        collectAttrs_updForestX_one c (updElemX c 1 flag e).1 rest]
end

theorem collectAttrs_fold_one (textBoxes : List TextBox) :
    ∀ (es : XMLForest),
      collectAttrsForest
          (textBoxes.foldl (fun es tb => updateTextInXMLElement es tb.content 1)
            es)
        = collectAttrsForest es := by
  induction textBoxes with
  | nil => intro es; rfl
  | cons tb tbs ih =>
      intro es
      simp only [List.foldl_cons]
      rw [ih, updateTextInXMLElement, collectAttrs_updForestX_one]

/-- C10 — Unknown-language defaults: a language code absent from the
supported table (comparison after lowercasing, so the lookup is
case-insensitive) resolves to `LeftToRightDirection` and expansion factor
`1`, the resulting font-size scale is exactly `1`, and rewriting a story
with that language sets the story direction to `LeftToRightDirection`
while leaving every character range's attribute map — in particular every
point-size attribute — unchanged, because the scaling branch is skipped
when the scale equals `1`. -/
theorem C10_unknown_language (lang : String) (story : XStory)
    (textBoxes : List TextBox)
    (h : ∀ cfg ∈ SUPPORTED_LANGUAGES,
        toLowerString cfg.code ≠ toLowerString lang) :
    getTextDirection lang = "LeftToRightDirection" ∧
    getExpansionFactor lang = 1 ∧
    fontSizeScaleFor lang = 1 ∧
    (updateXMLStoryContentWithDirection story textBoxes
        (getTextDirection lang) (fontSizeScaleFor lang)).pref
      = story.pref.map
          (fun a => mapSet a "StoryDirection" "LeftToRightDirection") ∧
    collectAttrsForest (updateXMLStoryContentWithDirection story textBoxes
        (getTextDirection lang) (fontSizeScaleFor lang)).elems
      = collectAttrsForest story.elems := by
  have hnone := getLanguageConfig_unknown lang h
  have hdir : getTextDirection lang = "LeftToRightDirection" := by
    unfold getTextDirection
    rw [hnone]
  have hexp : getExpansionFactor lang = 1 := by
    unfold getExpansionFactor
    rw [hnone]
    norm_num
  have hscale : fontSizeScaleFor lang = 1 := by
    unfold fontSizeScaleFor
    rw [hexp]
    norm_num
  refine ⟨hdir, hexp, hscale, ?_, ?_⟩
  · rw [hdir]
    rfl
  · simp only [updateXMLStoryContentWithDirection]
    rw [hscale]
    exact collectAttrs_fold_one textBoxes story.elems

/-- Witness for C10 at the unknown code `xx` on a concrete story. -/
theorem C10_witness :
    getTextDirection "xx" = "LeftToRightDirection" ∧
    getExpansionFactor "xx" = 1 ∧
    fontSizeScaleFor "xx" = 1 ∧
    (updateXMLStoryContentWithDirection
        ⟨some [("StoryDirection", "RightToLeftDirection")],
          .cons (.mk [⟨[⟨some ⟨some 12, []⟩, ["T"]⟩]⟩] [] .nil) .nil⟩
        [⟨"Story_1", "T2", "Story_1"⟩]
        (getTextDirection "xx") (fontSizeScaleFor "xx")).pref
      = (some [("StoryDirection", "RightToLeftDirection")]).map
          (fun a => mapSet a "StoryDirection" "LeftToRightDirection") ∧
    collectAttrsForest (updateXMLStoryContentWithDirection
        ⟨some [("StoryDirection", "RightToLeftDirection")],
          .cons (.mk [⟨[⟨some ⟨some 12, []⟩, ["T"]⟩]⟩] [] .nil) .nil⟩
        [⟨"Story_1", "T2", "Story_1"⟩]
        (getTextDirection "xx") (fontSizeScaleFor "xx")).elems
      = collectAttrsForest
          (.cons (.mk [⟨[⟨some ⟨some 12, []⟩, ["T"]⟩]⟩] [] .nil) .nil) :=
  C10_unknown_language "xx"
    ⟨some [("StoryDirection", "RightToLeftDirection")],
      .cons (.mk [⟨[⟨some ⟨some 12, []⟩, ["T"]⟩]⟩] [] .nil) .nil⟩
    [⟨"Story_1", "T2", "Story_1"⟩] (by decide)

/- ### C3 — Direct-path substitution -/

theorem updateRangesD_length (c : String) (s : ℚ) (i : Nat) :
    ∀ (k : Nat) (rs : SRForest),
      (updateRangesD c s i k rs).length = rs.length
  | _, .nil => rfl
  | k, .cons r rs => by
      simp only [updateRangesD, SRForest.length,
        updateRangesD_length c s i (k + 1) rs]

theorem updateRangesD_get? (c : String) (s : ℚ) (i : Nat) :
    ∀ (k : Nat) (rs : SRForest) (j : Nat),
      (updateRangesD c s i k rs).get? j
        = (rs.get? j).map (updateCharRangeD c s (i == 0 && (k + j) == 0))
  | _, .nil, _ => rfl
  | k, .cons r rs, 0 => by
      simp [updateRangesD, SRForest.get?]
  | k, .cons r rs, j + 1 => by
      have ih := updateRangesD_get? c s i (k + 1) rs j
      have hk : k + 1 + j = k + (j + 1) := by omega
      rw [hk] at ih
      simpa [updateRangesD, SRForest.get?] using ih

theorem updateParasD_length (c : String) (s : ℚ) :
    ∀ (k : Nat) (ps : SRForest),
      (updateParasD c s k ps).length = ps.length
  | _, .nil => rfl
  | k, .cons p ps => by
      simp only [updateParasD, SRForest.length,
        updateParasD_length c s (k + 1) ps]

theorem updateParasD_get? (c : String) (s : ℚ) :
    ∀ (k : Nat) (ps : SRForest) (i : Nat),
      (updateParasD c s k ps).get? i
        = (ps.get? i).map (fun p =>
            match p with
            | .mk a csr cont x =>
                .mk a (updateRangesD c s (k + i) 0 csr) cont x)
  | _, .nil, _ => rfl
  | k, .cons p ps, 0 => by
      simp [updateParasD, SRForest.get?]
  | k, .cons p ps, i + 1 => by
      have ih := updateParasD_get? c s (k + 1) ps i
      have hk : k + 1 + i = k + (i + 1) := by omega
      rw [hk] at ih
      simpa [updateParasD, SRForest.get?] using ih

/-- C3 — Direct-path substitution: with a non-trivial scale, rewriting a
paragraph forest keeps the paragraph skeleton (length, paragraph
attributes, paragraph-level content and stray text, range count), writes
the new content into the character-style range at paragraph 0, range 0
only, sets every other range's content to the empty string, and replaces
each range's point-size attribute (default 12 when it has an attribute
map without one) by its two-decimal-rounded product with the scale —
the scaling is applied to the original size, independent of the content
clearing that follows it. -/
theorem C3_direct_substitution (paragraphs : SRForest) (newContent : String)
    (scale : ℚ) (i j : Nat) (p r : SRange) (hscale : scale ≠ 1)
    (hp : paragraphs.get? i = some p) (hr : p.csrD.get? j = some r) :
    (updateTextInParagraphs paragraphs newContent scale).length
        = paragraphs.length ∧
    ∃ p' r',
      (updateTextInParagraphs paragraphs newContent scale).get? i
          = some p' ∧
      p'.attrsD = p.attrsD ∧ p'.contentD = p.contentD ∧
      p'.extraD = p.extraD ∧ p'.csrD.length = p.csrD.length ∧
      p'.csrD.get? j = some r' ∧
      r'.csrD = r.csrD ∧ r'.extraD = r.extraD ∧
      r'.contentD = [CItem.cstr (if i = 0 ∧ j = 0 then newContent else "")] ∧
      r'.attrsD = (match r.attrsD with
        | some a =>
            some ⟨some (toFixed2 (a.pointSize.getD 12 * scale)), a.rest⟩
        | none => none) := by
  refine ⟨updateParasD_length newContent scale 0 paragraphs, ?_⟩
  obtain ⟨a, csr, cont, x⟩ := p
  simp only [SRange.csrD] at hr
  have hget := updateParasD_get? newContent scale 0 paragraphs i
  rw [hp] at hget
  simp only [Option.map_some', Nat.zero_add] at hget
  have hrg := updateRangesD_get? newContent scale i 0 csr j
  rw [hr] at hrg
  simp only [Option.map_some', Nat.zero_add] at hrg
  obtain ⟨ar, csrr, contr, xr⟩ := r
  have hcontent :
      (if (i == 0 && j == 0 : Bool) then newContent else "")
        = (if i = 0 ∧ j = 0 then newContent else "") := by
    by_cases hij : i = 0 ∧ j = 0
    · simp [hij.1, hij.2]
    · have hb : (i == 0 && j == 0) = false := by
        rcases Nat.eq_zero_or_pos i with hi | hi
        · rcases Nat.eq_zero_or_pos j with hj | hj
          · exact absurd ⟨hi, hj⟩ hij
          · simp [Nat.pos_iff_ne_zero.1 hj]
        · simp [Nat.pos_iff_ne_zero.1 hi]
      rw [hb, if_neg hij]
      rfl
  refine ⟨.mk a (updateRangesD newContent scale i 0 csr) cont x,
    updateCharRangeD newContent scale (i == 0 && j == 0) (.mk ar csrr contr xr),
    hget, rfl, rfl, rfl,
    updateRangesD_length newContent scale i 0 csr, hrg, rfl, rfl, ?_, ?_⟩
  · simp only [updateCharRangeD, SRange.contentD]
    rw [hcontent]
  · simp only [updateCharRangeD, SRange.attrsD, scaleAttrs, if_neg hscale]

/-- A first character-style range carrying attributes, for the C3
witness. -/
def c3r1 : SRange :=
  .mk (some ⟨some 12, [("AppliedFont", "F")]⟩) .nil [CItem.cstr "Hello"] ""

/-- A second, attribute-free character-style range, for the C3 witness. -/
def c3r2 : SRange := .mk none .nil [CItem.cstr "World"] ""

/-- A one-paragraph forest with two character ranges, for the C3 witness. -/
def c3Paras : SRForest :=
  .cons (.mk none (.cons c3r1 (.cons c3r2 .nil)) [] "") .nil

/-- Witness for C3 at scale 2, paragraph 0, range 1: the non-first range
is cleared and keeps no point size (it has no attribute map). -/
theorem C3_witness :
    (updateTextInParagraphs c3Paras "NEW" 2).length = c3Paras.length ∧
    ∃ p' r',
      (updateTextInParagraphs c3Paras "NEW" 2).get? 0 = some p' ∧
      p'.attrsD = none ∧ p'.contentD = [] ∧ p'.extraD = "" ∧
      p'.csrD.length = (SRForest.cons c3r1 (.cons c3r2 .nil)).length ∧
      p'.csrD.get? 1 = some r' ∧
      r'.csrD = c3r2.csrD ∧ r'.extraD = c3r2.extraD ∧
      r'.contentD = [CItem.cstr ""] ∧
      r'.attrsD = none :=
  C3_direct_substitution c3Paras "NEW" 2 0 1
    (.mk none (.cons c3r1 (.cons c3r2 .nil)) [] "") c3r2 (by norm_num)
    rfl rfl

/- ### C4 — Tagged-path substitution -/

/-- A tagged element with no direct ranges whose nested child holds one
character-style range. -/
def sibElemA : XMLElem :=
  .mk [] [] (.cons (.mk [⟨[⟨none, ["x"]⟩]⟩] [] .nil) .nil)

/-- A sibling tagged element with one direct character-style range. -/
def sibElemB : XMLElem := .mk [⟨[⟨none, ["y"]⟩]⟩] [] .nil

/-- C4 counterexample: the first element accepts the content only inside
its nested child, and because the recursive call's `contentInserted`
flag never flows back to the caller, the sibling element `sibElemB` also
receives the content — it is written twice, contradicting the claimed
short-circuit. -/
theorem C4_counterexample :
    updateTextInXMLElement (.cons sibElemA (.cons sibElemB .nil)) "NEW" 1
      = .cons (.mk [] [] (.cons (.mk [⟨[⟨none, ["NEW"]⟩]⟩] [] .nil) .nil))
          (.cons (.mk [⟨[⟨none, ["NEW"]⟩]⟩] [] .nil) .nil) ∧
    ("NEW" : String) ≠ "" :=
  ⟨rfl, by decide⟩

/-- `Content` arrays of a list of character ranges. -/
def contentsRanges (rs : List XRange) : List (List String) :=
  rs.map (·.content)

/-- `Content` arrays of every character range of a paragraph list. -/
def contentsParas (ps : List XPara) : List (List String) :=
  ps.foldr (fun p acc => contentsRanges p.ranges ++ acc) []

/-- `Content` arrays of the directly-reached (paragraph) character
ranges of a forest, in traversal order; nested elements and direct
`CharacterStyleRange` arrays are never written by the rewrite and are
not collected. -/
def contentsForestDirect : XMLForest → List (List String)
  | .nil => []
  | .cons e rest => contentsParas e.psrX ++ contentsForestDirect rest

theorem updRangesX_true (c : String) (s : ℚ) :
    ∀ (rs : List XRange),
      updRangesX c s true rs
        = (true, rs.map (fun r => ⟨scaleAttrs s r.attrs, [""]⟩))
  | [] => rfl
  | r :: rs => by
      simp [updRangesX, updRangeX, updRangesX_true c s rs]

theorem updRangesX_false_cons (c : String) (s : ℚ) (r : XRange)
    (rs : List XRange) :
    updRangesX c s false (r :: rs)
      = (true, ⟨scaleAttrs s r.attrs, [c]⟩
          :: rs.map (fun r => ⟨scaleAttrs s r.attrs, [""]⟩)) := by
  simp [updRangesX, updRangeX, updRangesX_true]

theorem updParasX_true (c : String) (s : ℚ) :
    ∀ (ps : List XPara),
      updParasX c s true ps
        = (true, ps.map (fun p =>
            ⟨p.ranges.map (fun r => ⟨scaleAttrs s r.attrs, [""]⟩)⟩))
  | [] => rfl
  | p :: ps => by
      simp [updParasX, updRangesX_true, updParasX_true c s ps]

theorem contentsParas_map_clear (s : ℚ) (ps : List XPara) :
    contentsParas (ps.map (fun p =>
        ⟨p.ranges.map (fun r => ⟨scaleAttrs s r.attrs, [""]⟩)⟩))
      = (contentsParas ps).map (fun _ => [""]) := by
  induction ps with
  | nil => rfl
  | cons p ps ih =>
      simp only [List.map_cons, contentsParas, List.foldr_cons]
      show contentsRanges _ ++
          contentsParas (ps.map _) = _
      rw [ih]
      simp [contentsRanges, contentsParas, List.map_map, List.map_append]

theorem updParasX_false_contents (c : String) (s : ℚ) :
    ∀ (ps : List XPara),
      ((updParasX c s false ps).1 = !(contentsParas ps).isEmpty) ∧
      contentsParas (updParasX c s false ps).2
        = (match contentsParas ps with
           | [] => []
           | _ :: rest => [c] :: rest.map (fun _ => [""]))
  | [] => ⟨rfl, rfl⟩
  | p :: ps => by
      cases hrs : p.ranges with
      | nil =>
          have ih := updParasX_false_contents c s ps
          have hps : contentsParas (p :: ps) = contentsParas ps := by
            simp [contentsParas, contentsRanges, hrs]
          constructor
          · show (updParasX c s (updRangesX c s false p.ranges).1 ps).1 = _
            rw [hrs]
            show (updParasX c s false ps).1 = _
            rw [ih.1, hps]
          · show contentsParas
                (⟨(updRangesX c s false p.ranges).2⟩
                  :: (updParasX c s (updRangesX c s false p.ranges).1 ps).2)
              = _
            rw [hps]
            simp only [hrs]
            show contentsRanges ([] : List XRange) ++
                contentsParas (updParasX c s false ps).2 = _
            rw [ih.2]
            rfl
      | cons r rs =>
          have hps : contentsParas (p :: ps)
              = r.content :: (contentsRanges rs ++ contentsParas ps) := by
            simp [contentsParas, contentsRanges, hrs]
          constructor
          · show (updParasX c s (updRangesX c s false p.ranges).1 ps).1 = _
            rw [hrs, updRangesX_false_cons, updParasX_true, hps]
            rfl
          · show contentsParas
                (⟨(updRangesX c s false p.ranges).2⟩
                  :: (updParasX c s (updRangesX c s false p.ranges).1 ps).2)
              = _
            rw [hrs, updRangesX_false_cons, updParasX_true, hps]
            show contentsRanges _ ++ contentsParas (ps.map _) = _
            rw [contentsParas_map_clear]
            simp [contentsRanges, contentsParas, List.map_map,
              List.map_append]

theorem updForestX_true_flat (c : String) (s : ℚ) :
    ∀ (f : XMLForest), (∀ e ∈ f.toList, e.childrenX = .nil) →
      (updForestX c s true f).1 = true ∧
      contentsForestDirect (updForestX c s true f).2
        = (contentsForestDirect f).map (fun _ => [""])
  | .nil, _ => ⟨rfl, rfl⟩
  | .cons e rest, h => by
      obtain ⟨psr, csr, children⟩ := e
      have hch : children = .nil :=
        h _ (List.mem_cons_self _ rest.toList)
      subst hch
      have ih := updForestX_true_flat c s rest
        (fun e he => h e (List.mem_cons_of_mem _ he))
      constructor
      · show (updForestX c s (updElemX c s true (.mk psr csr .nil)).1 rest).1
            = true
        have h1 : (updElemX c s true (.mk psr csr .nil)).1 = true := by
          simp [updElemX, updParasX_true]
        rw [h1, ih.1]
      · show contentsParas (updElemX c s true (.mk psr csr .nil)).2.psrX
            ++ contentsForestDirect
                (updForestX c s (updElemX c s true (.mk psr csr .nil)).1
                  rest).2
          = _
        have h1 : (updElemX c s true (.mk psr csr .nil)).1 = true := by
          simp [updElemX, updParasX_true]
        rw [h1]
        have h2 : (updElemX c s true (.mk psr csr .nil)).2
            = .mk (psr.map (fun p =>
                ⟨p.ranges.map (fun r => ⟨scaleAttrs s r.attrs, [""]⟩)⟩)) csr
                .nil := by
          simp [updElemX, updParasX_true]
        rw [h2]
        show contentsParas (psr.map _) ++ _ = _
        rw [contentsParas_map_clear, ih.2]
        show _ = (contentsParas psr ++ contentsForestDirect rest).map _
        rw [List.map_append]

theorem updForestX_false_flat (c : String) (s : ℚ) :
    ∀ (f : XMLForest), (∀ e ∈ f.toList, e.childrenX = .nil) →
      ((updForestX c s false f).1
          = !(contentsForestDirect f).isEmpty) ∧
      contentsForestDirect (updForestX c s false f).2
        = (match contentsForestDirect f with
           | [] => []
           | _ :: rest => [c] :: rest.map (fun _ => [""]))
  | .nil, _ => ⟨rfl, rfl⟩
  | .cons e rest, h => by
      obtain ⟨psr, csr, children⟩ := e
      have hch : children = .nil :=
        h _ (List.mem_cons_self _ rest.toList)
      subst hch
      have hflat : ∀ e ∈ rest.toList, e.childrenX = XMLForest.nil :=
        fun e he => h e (List.mem_cons_of_mem _ he)
      have hp := updParasX_false_contents c s psr
      have hcf : contentsForestDirect (.cons (.mk psr csr .nil) rest)
          = contentsParas psr ++ contentsForestDirect rest := rfl
      cases hps : contentsParas psr with
      | nil =>
          have ih := updForestX_false_flat c s rest hflat
          have h1 : (updElemX c s false (.mk psr csr .nil)).1 = false := by
            show (updParasX c s false psr).1 = false
            rw [hp.1, hps]
            rfl
          constructor
          · show (updForestX c s
                  (updElemX c s false (.mk psr csr .nil)).1 rest).1 = _
            rw [h1, ih.1, hcf, hps]
            rfl
          · show contentsParas
                  (updElemX c s false (.mk psr csr .nil)).2.psrX
                ++ contentsForestDirect
                    (updForestX c s
                      (updElemX c s false (.mk psr csr .nil)).1 rest).2
              = _
            rw [h1]
            have h2 : contentsParas
                (updElemX c s false (.mk psr csr .nil)).2.psrX = [] := by
              show contentsParas (updParasX c s false psr).2 = []
              rw [hp.2, hps]
            rw [h2, ih.2, hcf, hps]
            rfl
      | cons h0 t0 =>
          have h1 : (updElemX c s false (.mk psr csr .nil)).1 = true := by
            show (updParasX c s false psr).1 = true
            rw [hp.1, hps]
            rfl
          have ih := updForestX_true_flat c s rest hflat
          constructor
          · show (updForestX c s
                  (updElemX c s false (.mk psr csr .nil)).1 rest).1 = _
            rw [h1, ih.1, hcf, hps]
            rfl
          · show contentsParas
                  (updElemX c s false (.mk psr csr .nil)).2.psrX
                ++ contentsForestDirect
                    (updForestX c s
                      (updElemX c s false (.mk psr csr .nil)).1 rest).2
              = _
            rw [h1]
            have h2 : contentsParas
                (updElemX c s false (.mk psr csr .nil)).2.psrX
                = [c] :: t0.map (fun _ => [""]) := by
              show contentsParas (updParasX c s false psr).2 = _
              rw [hp.2, hps]
            rw [h2, ih.2, hcf, hps]
            show ([c] :: t0.map _) ++ (contentsForestDirect rest).map _ = _
            rw [List.cons_append]
            show _ = [c] :: ((t0 ++ contentsForestDirect rest).map
              (fun _ => [""]))
            rw [List.map_append]

/-- C4 (amended) — Tagged-path substitution without nesting: over sibling
tagged elements whose character-style ranges are all reached directly
(no element has nested children), first-match-wins and the short-circuit
hold — the content is written into the first directly-reached range in
traversal order and every later directly-reached range is cleared.  (The
claim's full short-circuit across the nested tree fails: an insertion
made inside a nested element does not stop a later sibling element from
receiving the content again, see the counterexample.) -/
theorem C4_tagged_first_match (f : XMLForest) (c : String) (s : ℚ)
    (hflat : ∀ e ∈ f.toList, e.childrenX = .nil) :
    contentsForestDirect (updateTextInXMLElement f c s)
      = (match contentsForestDirect f with
         | [] => []
         | _ :: rest => [c] :: rest.map (fun _ => [""])) :=
  (updForestX_false_flat c s f hflat).2

/-- A flat two-element forest with three ranges, for the C4 witness. -/
def c4FlatForest : XMLForest :=
  .cons (.mk [⟨[⟨none, ["a"]⟩, ⟨none, ["b"]⟩]⟩] [] .nil)
    (.cons (.mk [⟨[⟨none, ["d"]⟩]⟩] [] .nil) .nil)

/-- Witness for C4 on a flat forest: the first range takes the content,
both remaining ranges — the second of the first element and the one of
the sibling element — are cleared. -/
theorem C4_witness :
    contentsForestDirect (updateTextInXMLElement c4FlatForest "NEW" 1)
      = [["NEW"], [""], [""]] :=
  C4_tagged_first_match c4FlatForest "NEW" 1
    (by
      intro e he
      simp only [c4FlatForest, XMLForest.toList] at he
      rcases List.mem_cons.1 he with rfl | he2
      · rfl
      rcases List.mem_cons.1 he2 with rfl | he3
      · rfl
      simp at he3)

/- ### C1 — round-trip identity -/

/-- A character range holding `"Hello"`. -/
def rHello : SRange := .mk none .nil [CItem.cstr "Hello"] ""

/-- A character range holding `"World"`. -/
def rWorld : SRange := .mk none .nil [CItem.cstr "World"] ""

/-- A story with a single paragraph containing two character-style
ranges, `"Hello"` and `"World"`. -/
def helloWorldStory : DStory :=
  ⟨none, .cons (.mk none (.cons rHello (.cons rWorld .nil)) [] "") .nil⟩

/-- The `Content` of the second character-style range of the first
paragraph of a story. -/
def secondRangeContentD (st : DStory) : Option (List CItem) :=
  (st.paragraphs.get? 0).bind (fun p => (p.csrD.get? 1).map SRange.contentD)

/-- C1 counterexample: rewriting `helloWorldStory` with its own
extracted content `"HelloWorld"` under the identity language settings
(direction `LeftToRightDirection`, scale 1) moves all the text into the
first character range and empties the second, whose text node changes
from `"World"` to `""` — the rewritten story is not structurally
equivalent to the original. -/
theorem C1_counterexample :
    extractDirectUnit "Story_1" helloWorldStory
      = some ⟨"Story_1", "HelloWorld", "Story_1"⟩ ∧
    secondRangeContentD helloWorldStory = some [CItem.cstr "World"] ∧
    secondRangeContentD (updateStoryContentWithDirection helloWorldStory
        [⟨"Story_1", "HelloWorld", "Story_1"⟩] "LeftToRightDirection" 1)
      = some [CItem.cstr ""] ∧
    updateStoryContentWithDirection helloWorldStory
        [⟨"Story_1", "HelloWorld", "Story_1"⟩] "LeftToRightDirection" 1
      ≠ helloWorldStory := by
  refine ⟨rfl, rfl, rfl, fun h => ?_⟩
  have h2 : (some [CItem.cstr ""] : Option (List CItem))
      = some [CItem.cstr "World"] := congrArg secondRangeContentD h
  exact absurd h2 (by decide)

theorem extractElem_updated_false (c : String) (s : ℚ) (r : SRange)
    (hcsr : r.csrD = .nil) (hx : r.extraD = "") :
    extractElemD (updateCharRangeD c s false r) = "" := by
  obtain ⟨a, csr, cont, x⟩ := r
  simp only [SRange.csrD] at hcsr
  simp only [SRange.extraD] at hx
  subst hcsr
  subst hx
  rfl

theorem extractElem_updated_true (c : String) (s : ℚ) (r : SRange)
    (hcsr : r.csrD = .nil) (hx : r.extraD = "") :
    extractElemD (updateCharRangeD c s true r) = c := by
  obtain ⟨a, csr, cont, x⟩ := r
  simp only [SRange.csrD] at hcsr
  simp only [SRange.extraD] at hx
  subst hcsr
  subst hx
  show extractTextContent .nil
      ++ [CItem.cstr c].foldl (fun t c => t ++ cItemText c) "" ++ "" = c
  simp only [List.foldl_cons, List.foldl_nil, cItemText]
  rw [String.append_empty]
  show "" ++ ("" ++ c) = c
  rw [String.empty_append, String.empty_append]

theorem extract_updateRangesD_clear (c : String) (s : ℚ) :
    ∀ (rs : SRForest) (i j : Nat), i ≠ 0 ∨ j ≠ 0 →
      (∀ r ∈ rs.toList, r.csrD = .nil ∧ r.extraD = "") →
      extractTextContent (updateRangesD c s i j rs) = ""
  | .nil, _, _, _, _ => rfl
  | .cons r rs, i, j, hij, hcl => by
      have hb : (i == 0 && j == 0) = false := by
        rcases hij with h | h <;> simp [h]
      have hr := hcl r (List.mem_cons_self r rs.toList)
      have ih := extract_updateRangesD_clear c s rs i (j + 1)
        (Or.inr (Nat.succ_ne_zero j))
        (fun r' hr' => hcl r' (List.mem_cons_of_mem r hr'))
      show extractElemD (updateCharRangeD c s (i == 0 && j == 0) r)
          ++ extractTextContent (updateRangesD c s i (j + 1) rs) = ""
      rw [hb, extractElem_updated_false c s r hr.1 hr.2, ih,
        String.append_empty]

theorem extract_updateRangesD_first (c : String) (s : ℚ) (r0 : SRange)
    (rs : SRForest)
    (hcl : ∀ r ∈ (SRForest.cons r0 rs).toList,
        r.csrD = .nil ∧ r.extraD = "") :
    extractTextContent (updateRangesD c s 0 0 (.cons r0 rs)) = c := by
  have hr0 := hcl r0 (List.mem_cons_self r0 rs.toList)
  show extractElemD (updateCharRangeD c s ((0:Nat) == 0 && (0:Nat) == 0) r0)
      ++ extractTextContent (updateRangesD c s 0 1 rs) = c
  rw [show ((0:Nat) == 0 && (0:Nat) == 0) = true from rfl,
    extractElem_updated_true c s r0 hr0.1 hr0.2,
    extract_updateRangesD_clear c s rs 0 1 (Or.inr Nat.one_ne_zero)
      (fun r' hr' => hcl r' (List.mem_cons_of_mem r0 hr')),
    String.append_empty]

theorem extract_updateParasD_rest (c : String) (s : ℚ) :
    ∀ (ps : SRForest) (k : Nat), k ≠ 0 →
      (∀ p ∈ ps.toList, p.contentD = [] ∧ p.extraD = "" ∧
          ∀ r ∈ p.csrD.toList, r.csrD = .nil ∧ r.extraD = "") →
      extractTextContent (updateParasD c s k ps) = ""
  | .nil, _, _, _ => rfl
  | .cons p ps, k, hk, hcl => by
      obtain ⟨a, csr, cont, x⟩ := p
      obtain ⟨h1, h2, h3⟩ := hcl _ (List.mem_cons_self _ ps.toList)
      simp only [SRange.contentD] at h1
      simp only [SRange.extraD] at h2
      simp only [SRange.csrD] at h3
      subst h1
      subst h2
      have ih := extract_updateParasD_rest c s ps (k + 1)
        (Nat.succ_ne_zero k)
        (fun p' hp' => hcl p' (List.mem_cons_of_mem _ hp'))
      show extractElemD (.mk a (updateRangesD c s k 0 csr) [] "")
          ++ extractTextContent (updateParasD c s (k + 1) ps) = ""
      rw [ih, String.append_empty]
      show extractTextContent (updateRangesD c s k 0 csr)
          ++ [].foldl (fun t c => t ++ cItemText c) "" ++ "" = ""
      rw [extract_updateRangesD_clear c s csr k 0 (Or.inl hk) h3]
      rfl

theorem extract_update_eq (c : String) (s : ℚ) (p0 : SRange)
    (ps' : SRForest) (r0 : SRange) (rs0 : SRForest)
    (hp0 : p0.csrD = .cons r0 rs0)
    (hcl : ∀ p ∈ (SRForest.cons p0 ps').toList,
        p.contentD = [] ∧ p.extraD = "" ∧
        ∀ r ∈ p.csrD.toList, r.csrD = .nil ∧ r.extraD = "") :
    extractTextContent (updateTextInParagraphs (.cons p0 ps') c s) = c := by
  obtain ⟨a, csr, cont, x⟩ := p0
  simp only [SRange.csrD] at hp0
  subst hp0
  obtain ⟨h1, h2, h3⟩ := hcl _ (List.mem_cons_self _ ps'.toList)
  simp only [SRange.contentD] at h1
  simp only [SRange.extraD] at h2
  simp only [SRange.csrD] at h3
  subst h1
  subst h2
  show extractElemD (.mk a (updateRangesD c s 0 0 (.cons r0 rs0)) [] "")
      ++ extractTextContent (updateParasD c s 1 ps') = c
  rw [extract_updateParasD_rest c s ps' 1 Nat.one_ne_zero
    (fun p' hp' => hcl p' (List.mem_cons_of_mem _ hp')), String.append_empty]
  show extractTextContent (updateRangesD c s 0 0 (.cons r0 rs0))
      ++ [].foldl (fun t c => t ++ cItemText c) "" ++ "" = c
  rw [extract_updateRangesD_first c s r0 rs0 h3]
  simp only [List.foldl_nil, String.append_empty]

/-- C1 (amended) — Round-trip content preservation instead of structural
equivalence: for a story whose text lives entirely in its character-style
ranges' `Content` nodes (no stray text, no nested ranges) and whose
first paragraph has at least one character-style range, rewriting the
story with its own extracted unit re-extracts to exactly the same unit,
and the paragraph skeleton keeps its length; the parse trees themselves
are not equivalent, because the rewrite moves all content into the first
range and empties the others (see the counterexample). -/
theorem C1_round_trip_content (story : DStory) (sid : String)
    (dir : String) (scale : ℚ) (u : TextBox) (p0 : SRange)
    (ps' : SRForest) (r0 : SRange) (rs0 : SRForest)
    (hps : story.paragraphs = .cons p0 ps')
    (hp0 : p0.csrD = .cons r0 rs0)
    (hclean : ∀ p ∈ story.paragraphs.toList,
        p.contentD = [] ∧ p.extraD = "" ∧
        ∀ r ∈ p.csrD.toList, r.csrD = .nil ∧ r.extraD = "")
    (hu : extractDirectUnit sid story = some u) :
    extractDirectUnit sid
        (updateStoryContentWithDirection story [u] dir scale) = some u ∧
    (updateStoryContentWithDirection story [u] dir scale).paragraphs.length
      = story.paragraphs.length := by
  unfold extractDirectUnit at hu
  by_cases hne : jsTrim (extractTextContent story.paragraphs) = ""
  · rw [if_pos hne] at hu
    cases hu
  · rw [if_neg hne] at hu
    have hu' : u = ⟨sid, extractTextContent story.paragraphs, sid⟩ :=
      (Option.some.inj hu).symm
    have hfold : (updateStoryContentWithDirection story [u] dir
        scale).paragraphs
        = updateTextInParagraphs story.paragraphs u.content scale := rfl
    have hextract : extractTextContent
        (updateTextInParagraphs story.paragraphs u.content scale)
        = u.content := by
      rw [hps]
      exact extract_update_eq u.content scale p0 ps' r0 rs0 hp0
        (hps ▸ hclean)
    constructor
    · unfold extractDirectUnit
      rw [hfold, hextract]
      have : jsTrim u.content ≠ "" := by
        rw [hu']
        exact hne
      rw [if_neg this, hu']
    · rw [hfold]
      exact updateParasD_length u.content scale 0 story.paragraphs

/-- Witness for C1: `helloWorldStory` rewritten with its own extracted
unit re-extracts to that unit, with the paragraph count preserved. -/
theorem C1_witness :
    extractDirectUnit "Story_1"
        (updateStoryContentWithDirection helloWorldStory
          [⟨"Story_1", "HelloWorld", "Story_1"⟩] "RightToLeftDirection" 2)
      = some ⟨"Story_1", "HelloWorld", "Story_1"⟩ ∧
    (updateStoryContentWithDirection helloWorldStory
        [⟨"Story_1", "HelloWorld", "Story_1"⟩] "RightToLeftDirection"
        2).paragraphs.length
      = helloWorldStory.paragraphs.length :=
  C1_round_trip_content helloWorldStory "Story_1" "RightToLeftDirection" 2
    ⟨"Story_1", "HelloWorld", "Story_1"⟩
    (.mk none (.cons rHello (.cons rWorld .nil)) [] "") .nil
    rHello (.cons rWorld .nil) rfl rfl
    (by
      intro p hp
      simp only [helloWorldStory, SRForest.toList] at hp
      rcases List.mem_cons.1 hp with rfl | hp2
      · refine ⟨rfl, rfl, ?_⟩
        intro r hr
        simp only [SRange.csrD, SRForest.toList] at hr
        rcases List.mem_cons.1 hr with rfl | hr2
        · exact ⟨rfl, rfl⟩
        rcases List.mem_cons.1 hr2 with rfl | hr3
        · exact ⟨rfl, rfl⟩
        simp at hr3
      simp at hp2)
    rfl
